import Mathlib

/-!
# Verification of the FBThreatExchange signal-exchange implementation

Shallow embedding of
`python-threatexchange/threatexchange/exchanges/impl/fb_threatexchange_api.py`.

Conventions of the embedding:
* Python `dict`s (which preserve insertion order and update values in place)
  are modelled as association lists with `dictInsert` / `dictGet`.
* Python strings are Lean `String`s; the Python substring test `a in b` is
  `strIn a b` (infix-of on the character lists).
* Machine-independent Python integers are `Int`.
* `time.time()` is an explicit `now : Int` argument.
* The stateful Signal Projection (`naive_convert_to_signal_type`), which
  mutates shared `FBThreatExchangeIndicatorRecord` objects in place via
  `merge`, is modelled with an explicit object store (`Store`): records in
  the fetched mapping are references (`Ref`) into the store, and in-place
  mutation is explicit store update.
* Raising an exception is returning `Except.error`.
-/

/-! ## Generic helpers: Python dicts and substring test -/

/-- Lookup in an insertion-ordered association list (Python `dict.get`). -/
def dictGet {K V : Type} [DecidableEq K] : List (K × V) → K → Option V
  | [], _ => none
  | (k', v') :: rest, k => if k' = k then some v' else dictGet rest k

/-- Insertion into an insertion-ordered association list (Python `d[k] = v`):
updates the value in place if the key is present, else appends at the end. -/
def dictInsert {K V : Type} [DecidableEq K] : List (K × V) → K → V → List (K × V)
  | [], k, v => [(k, v)]
  | (k', v') :: rest, k, v =>
    if k' = k then (k', v) :: rest else (k', v') :: dictInsert rest k v

/-- Python `a.isPrefix-like` helper on char lists (used only by `charsSub`). -/
def charsPre : List Char → List Char → Bool
  | [], _ => true
  | _ :: _, [] => false
  | a :: as, b :: bs => a = b && charsPre as bs

/-- Does `a` occur as a contiguous sublist of `b`? -/
def charsSub (a : List Char) : List Char → Bool
  | [] => charsPre a []
  | b :: bs => charsPre a (b :: bs) || charsSub a bs

/-- Python substring test `a in b` on strings. -/
def strIn (a b : String) : Bool := charsSub a.toList b.toList

/-! ## Data model (`fetch_state` enums and the module's dataclasses) -/

/-- `state.SignalOpinionCategory` (only the three values this module uses). -/
inductive SignalOpinionCategory
  | INVESTIGATION_SEED
  | POSITIVE_CLASS
  | NEGATIVE_CLASS
deriving DecidableEq, Repr

/-- `state.SignalOpinion` (base class; used by `report_opinion`). -/
structure SignalOpinion where
  owner : Int
  category : SignalOpinionCategory
  tags : List String
deriving DecidableEq, Repr

/-- `FBThreatExchangeOpinion`. `descriptor_id` is `Optional[int]` in the
source but every constructed value is an `int` (a descriptor id or the
`-1` reaction sentinel), so it is an `Int` here. -/
structure FBThreatExchangeOpinion where
  owner : Int
  category : SignalOpinionCategory
  tags : List String
  descriptor_id : Int
deriving DecidableEq, Repr

/-- `FBThreatExchangeOpinion.REACTION_DESCRIPTOR_ID`. -/
def REACTION_DESCRIPTOR_ID : Int := -1

/-- `FBThreatExchangeIndicatorRecord`. -/
structure FBThreatExchangeIndicatorRecord where
  opinions : List FBThreatExchangeOpinion
deriving DecidableEq, Repr

/-- `FBThreatExchangeCheckpoint`. -/
structure FBThreatExchangeCheckpoint where
  update_time : Int := 0
  last_fetch_time : Int
deriving DecidableEq, Repr

/-- `FBThreatExchangeCheckpoint.is_stale`, with `time.time()` passed
explicitly as `now`. -/
def is_stale (now : Int) (self : FBThreatExchangeCheckpoint) : Bool :=
  decide (now - self.last_fetch_time > 3600 * 24 * 85)

/-- `FBThreatExchangeCheckpoint.get_progress_timestamp`. -/
def get_progress_timestamp (self : FBThreatExchangeCheckpoint) : Int :=
  self.update_time

/-! ## Raw remote JSON payloads (`ThreatUpdateJSON`) -/

/-- The `tags` field of a raw descriptor: either a plain list of strings, or
the nested paginated form `{"data": [{"text": ...}, ...]}` (here already
projected to the `text` values, pre-sort). -/
inductive TagsJSON
  | plain (tags : List String)
  | paged (data : List String)
deriving DecidableEq, Repr

/-- One entry of `raw_json["descriptors"]["data"]`: the fields
`from_threatexchange_json` reads. A reaction is a `(key, value)` pair where
`value` is the reacting owner's id. -/
structure ThreatDescriptorJSON where
  id : Int
  owner : Int
  status : String
  tags : TagsJSON
  reactions : List (String × Int)
deriving DecidableEq, Repr

/-- A decoded `ThreatUpdateJSON`: the accessors the module uses
(`threat_type`, `indicator`, `time`, `should_delete`) plus the nested
descriptor payload. -/
structure ThreatUpdateJSON where
  threat_type : String
  indicator : String
  time : Int
  should_delete : Bool
  descriptors : List ThreatDescriptorJSON
deriving DecidableEq, Repr

/-- Insertion sort on strings, for the `sorted(...)` in tag normalization. -/
def insertSorted (s : String) : List String → List String
  | [] => [s]
  | x :: xs => if s ≤ x then s :: x :: xs else x :: insertSorted s xs

/-- `sorted` on a list of strings. -/
def sortStrings (l : List String) : List String :=
  l.foldr insertSorted []

/-- Tag normalization in `from_threatexchange_json`: a plain list is kept,
the nested paginated form is flattened to its sorted `text` values. -/
def normalizeTags : TagsJSON → List String
  | .plain tags => tags
  | .paged data => sortStrings data

/-- The status-to-category computation in `from_threatexchange_json`. -/
def categoryOfStatus (status : String) : SignalOpinionCategory :=
  if status = "MALICIOUS" then .POSITIVE_CLASS
  else if status = "NON_MALICIOUS" then .NEGATIVE_CLASS
  else .INVESTIGATION_SEED

/-- The explicit opinion built from one raw descriptor
(`explicit_opinions[owner_id] = FBThreatExchangeOpinion(...)`). -/
def opinionOfDescriptor (td : ThreatDescriptorJSON) : FBThreatExchangeOpinion :=
  ⟨td.owner, categoryOfStatus td.status, normalizeTags td.tags, td.id⟩

/-- One step of the reaction loop in `from_threatexchange_json`:
`HELPFUL` always writes `POSITIVE_CLASS`; `DISAGREE_WITH_TAGS` writes
`NEGATIVE_CLASS` only when that owner has no implicit opinion yet. -/
def reactionStep (imp : List (Int × SignalOpinionCategory)) (r : String × Int) :
    List (Int × SignalOpinionCategory) :=
  if r.1 = "HELPFUL" then dictInsert imp r.2 .POSITIVE_CLASS
  else if r.1 = "DISAGREE_WITH_TAGS" ∧ dictGet imp r.2 = none then
    dictInsert imp r.2 .NEGATIVE_CLASS
  else imp

/-- One step of the descriptor loop in `from_threatexchange_json`: record the
explicit opinion for the descriptor's owner, then fold its reactions into the
implicit-opinion dict. -/
def descriptorStep
    (acc : List (Int × FBThreatExchangeOpinion) × List (Int × SignalOpinionCategory))
    (td : ThreatDescriptorJSON) :
    List (Int × FBThreatExchangeOpinion) × List (Int × SignalOpinionCategory) :=
  (dictInsert acc.1 td.owner (opinionOfDescriptor td),
   td.reactions.foldl reactionStep acc.2)

/-- The final pass of `from_threatexchange_json`: implicit opinions are added
only for owners with no explicit opinion, with empty tags and the reaction
sentinel descriptor id. -/
def implicitAdd (e : List (Int × FBThreatExchangeOpinion))
    (p : Int × SignalOpinionCategory) : List (Int × FBThreatExchangeOpinion) :=
  if dictGet e p.1 = none then
    dictInsert e p.1 ⟨p.1, p.2, [], REACTION_DESCRIPTOR_ID⟩
  else e

/-- `FBThreatExchangeIndicatorRecord.from_threatexchange_json`. -/
def from_threatexchange_json (te_json : ThreatUpdateJSON) :
    Option FBThreatExchangeIndicatorRecord :=
  if te_json.should_delete then none
  else
    let ei := te_json.descriptors.foldl descriptorStep ([], [])
    let final := ei.2.foldl implicitAdd ei.1
    if final = [] then none
    else some ⟨final.map Prod.snd⟩

/-- `FBThreatExchangeIndicatorRecord.merge`, functionally: in the source it
extends `self.opinions` in place with `other.opinions`, no deduplication.
(The in-place variant appears in the store-passing projection below.) -/
def FBThreatExchangeIndicatorRecord.merge
    (self other : FBThreatExchangeIndicatorRecord) :
    FBThreatExchangeIndicatorRecord :=
  ⟨self.opinions ++ other.opinions⟩

/-! ## Type-Tag Resolver (`_make_indicator_type_mapping`) -/

/-- The shape of `HasFbThreatExchangeIndicatorType.INDICATOR_TYPE`:
a single string, a set of strings, or a dict of type-to-optional-tag. -/
inductive IndicatorTypeDecl
  | single (s : String)
  | typeSet (ss : List String)
  | typeTagMap (m : List (String × Option String))

/-- A supported `SignalType`, as this module sees it: an identity (`name`),
its `INDICATOR_TYPE` declaration when it subclasses
`HasFbThreatExchangeIndicatorType` (`none` when it does not), and its
`normalize_fb_threatexchange_indicator` classmethod. -/
structure SignalTypeDecl where
  name : String
  indicatorType : Option IndicatorTypeDecl
  normalize_fb_threatexchange_indicator : String → String → Option String → String

/-- The resolver mapping: ThreatType string, then optional tag, to the list
of signal types that claimed it. -/
abbrev TypeMapping := List (String × List (Option String × List SignalTypeDecl))

/-- `ret[type_][tag].append(st)` on the nested defaultdict. -/
def tmAppend (ret : TypeMapping) (ty : String) (tag : Option String)
    (st : SignalTypeDecl) : TypeMapping :=
  let inner := (dictGet ret ty).getD []
  let lst := (dictGet inner tag).getD []
  dictInsert ret ty (dictInsert inner tag (lst ++ [st]))

/-- `_make_indicator_type_mapping`. A Python `set`-shaped declaration is
modelled as a list of its elements (iteration order). -/
def _make_indicator_type_mapping (supported_signal_types : List SignalTypeDecl) :
    TypeMapping :=
  supported_signal_types.foldl (fun ret st =>
    match st.indicatorType with
    | none => ret
    | some d =>
      let types : List (String × Option String) :=
        match d with
        | .single s => [(s, none)]
        | .typeSet ss => ss.map (fun s => (s, none))
        | .typeTagMap m => m
      types.foldl (fun r p => tmAppend r p.1 p.2 st) ret) []

/-! ## Per-update filtering (`_indicator_applies`) -/

/-- `_indicator_applies`: based on the available signal types, return a
record, or `none` if the update's type has no resolver entry, the update
parses to no record, or (with no wildcard entry) no opinion tag is a key of
the resolver entry for that type. -/
def _indicator_applies (u : ThreatUpdateJSON) (type_mapping : TypeMapping) :
    Option FBThreatExchangeIndicatorRecord :=
  match dictGet type_mapping u.threat_type with
  | none => none
  | some potential_signal_type =>
    match from_threatexchange_json u with
    | none => none
    | some indicator =>
      if (dictGet potential_signal_type none).isSome then some indicator
      else if indicator.opinions.any (fun o =>
          o.tags.any (fun tag => (dictGet potential_signal_type (some tag)).isSome)) then
        some indicator
      else none

/-! ## Delta Fetch Loop (`fetch_iter`) -/

/-- `ThreatExchangeDelta = state.FetchDelta[...]`: the per-page emitted
mapping plus the new checkpoint. -/
structure ThreatExchangeDelta where
  updates : List ((String × String) × Option FBThreatExchangeIndicatorRecord)
  checkpoint : FBThreatExchangeCheckpoint
deriving DecidableEq, Repr

/-- The page loop of `fetch_iter`: accumulate each page into `batch`, track
the running maximum update time, rebuild the full key-to-record mapping over
the whole batch, and emit one delta per page. -/
def fetchLoop (type_mapping : TypeMapping) (now : Int) :
    List (List ThreatUpdateJSON) → List ThreatUpdateJSON → Int →
    List ThreatExchangeDelta
  | [], _batch, _highest_time => []
  | page :: rest, batch, highest_time =>
    let batch2 := batch ++ page
    let highest2 := page.foldl (fun h u => max u.time h) highest_time
    let updates := batch2.foldl (fun d u =>
      dictInsert d (u.threat_type, u.indicator) (_indicator_applies u type_mapping)) []
    ⟨updates, ⟨highest2, now⟩⟩ :: fetchLoop type_mapping now rest batch2 highest2

/-- `FBThreatExchangeSignalExchangeAPI.fetch_iter`. The remote cursor is an
external collaborator: `_checkpoint` only determines the `start_time` passed
to it, and `pages` stands for the pages the cursor yields. `now` is the
wall-clock time stamped into emitted checkpoints. -/
def fetch_iter (supported_signal_types : List SignalTypeDecl)
    (_checkpoint : Option FBThreatExchangeCheckpoint)
    (pages : List (List ThreatUpdateJSON)) (now : Int) : List ThreatExchangeDelta :=
  fetchLoop (_make_indicator_type_mapping supported_signal_types) now pages [] 0

/-! ## Signal Projection (`naive_convert_to_signal_type`), store-passing

The projection mutates shared record objects: `inner[s] = metadata` can store
the very record object held by the input `fetched` mapping, and a later
`existing.merge(tx_record)` extends that object's opinion list in place. To
capture this, records are references into an explicit `Store`. -/

/-- A reference to a record object. -/
abbrev Ref := Nat

/-- The object store: `recs.get i` is the opinion list of record object `i`. -/
structure Store where
  recs : List (List FBThreatExchangeOpinion)
deriving DecidableEq, Repr

/-- Read a record object's opinion list. -/
def readRef (st : Store) (r : Ref) : List FBThreatExchangeOpinion :=
  st.recs.getD r []

/-- Overwrite a record object's opinion list in place. -/
def writeRef (st : Store) (r : Ref) (ops : List FBThreatExchangeOpinion) : Store :=
  ⟨st.recs.set r ops⟩

/-- Allocate a fresh record object (`FBThreatExchangeIndicatorRecord(...)`). -/
def allocRec (st : Store) (ops : List FBThreatExchangeOpinion) : Store × Ref :=
  (⟨st.recs ++ [ops]⟩, st.recs.length)

/-- The filter in `_merge_record_for_signal_type`: keep the opinions whose
tag set contains a tag occurring as a substring of the candidate tag
(Python `any(t in tag for t in o.tags)`). -/
def applicable_opinions (ops : List FBThreatExchangeOpinion) (tag : String) :
    List FBThreatExchangeOpinion :=
  ops.filter (fun o => o.tags.any (fun t => strIn t tag))

/-- The tail of `_merge_record_for_signal_type`: if a record already exists
for the signal string, `existing.merge(tx_record)` extends it in place and
nothing is returned for insertion; otherwise `tx_record` is returned. -/
def finishMerge (st : Store) (tx_record : Ref) (existing : Option Ref) :
    Option Ref × Store :=
  match existing with
  | some e => (none, writeRef st e (readRef st e ++ readRef st tx_record))
  | none => (some tx_record, st)

/-- `_merge_record_for_signal_type`, store-passing. Returns the `to_insert`
result and the store after any in-place merge. -/
def _merge_record_for_signal_type (st : Store) (tx_record : Ref)
    (tag : Option String) (existing : Option Ref) : Option Ref × Store :=
  match tag with
  | some tg =>
    let ops := readRef st tx_record
    let applicable := applicable_opinions ops tg
    if applicable = [] then (none, st)
    else if applicable.length ≠ ops.length then
      let ar := allocRec st applicable
      finishMerge ar.1 ar.2 existing
    else finishMerge st tx_record existing
  | none => finishMerge st tx_record existing

/-- The per-signal-type mapping under construction:
signal type name, then normalized signal string, to the record object. -/
abbrev SignalTypeDict := List (String × List (String × Ref))

/-- The innermost loop body of `naive_convert_to_signal_type`: normalize the
signal string, ensure `ret` has an inner dict for the signal type, and insert
or merge the record. -/
def processSigType (type_str signal_str : String) (metadata : Ref)
    (tag : Option String) (acc : SignalTypeDict × Store) (tx_s_type : SignalTypeDecl) :
    SignalTypeDict × Store :=
  let ret := acc.1
  let store := acc.2
  let s_type_specific_signal_str :=
    tx_s_type.normalize_fb_threatexchange_indicator type_str signal_str tag
  let inner := (dictGet ret tx_s_type.name).getD []
  let existing := dictGet inner s_type_specific_signal_str
  let ins := _merge_record_for_signal_type store metadata tag existing
  let inner2 :=
    match ins.1 with
    | some r => dictInsert inner s_type_specific_signal_str r
    | none => inner
  (dictInsert ret tx_s_type.name inner2, ins.2)

/-- One candidate `(tag, s_types)` entry of the resolver, for one fetched
record: a non-wildcard tag must be exactly one of the record's opinion tags
(set membership) or the entry is skipped. -/
def processTagEntry (type_str signal_str : String) (metadata : Ref)
    (indicator_tags : List String) (acc : SignalTypeDict × Store)
    (p : Option String × List SignalTypeDecl) : SignalTypeDict × Store :=
  match p.1 with
  | some tg =>
    if indicator_tags.contains tg then
      p.2.foldl (processSigType type_str signal_str metadata (some tg)) acc
    else acc
  | none => p.2.foldl (processSigType type_str signal_str metadata none) acc

/-- One fetched `((type_str, signal_str), metadata)` entry of
`naive_convert_to_signal_type`: skipped when the remote type has no resolver
entry or the record is `none`; otherwise the record's tag set is collected
once and each candidate tag entry is processed. -/
def processEntry (mapping : TypeMapping)
    (kv : (String × String) × Option Ref) (acc : SignalTypeDict × Store) :
    SignalTypeDict × Store :=
  match dictGet mapping kv.1.1, kv.2 with
  | some potential_types, some metadata =>
    let indicator_tags := ((readRef acc.2 metadata).map (fun o => o.tags)).flatten
    potential_types.foldl (processTagEntry kv.1.1 kv.1.2 metadata indicator_tags) acc
  | _, _ => acc

/-- `FBThreatExchangeSignalExchangeAPI.naive_convert_to_signal_type`,
store-passing: `fetched` maps `(type_str, signal_str)` keys to record
objects, and the result is the per-signal-type dict together with the final
store (the input records may have been mutated in place). -/
def naive_convert_to_signal_type (signal_types : List SignalTypeDecl)
    (fetched : List ((String × String) × Option Ref)) (store : Store) :
    SignalTypeDict × Store :=
  let mapping := _make_indicator_type_mapping signal_types
  fetched.foldl (fun acc kv => processEntry mapping kv acc) ([], store)

/-! ## Write-path stubs and config -/

/-- The external graph-API client (only the field this module reads). -/
structure ThreatExchangeAPIClient where
  app_id : Int
deriving DecidableEq, Repr

/-- `FBThreatExchangeSignalExchangeAPI.__init__` state: the lazily-checked
client, present only when an app token was supplied. -/
structure FBThreatExchangeSignalExchangeAPI where
  api : Option ThreatExchangeAPIClient
deriving DecidableEq, Repr

/-- `FBThreatExchangeCollabConfig` (the field this module reads). -/
structure FBThreatExchangeCollabConfig where
  privacy_group : Int
deriving DecidableEq, Repr

/-- Python exceptions this module raises. -/
inductive PyError
  | notImplementedError
  | configException (msg : String)
deriving DecidableEq, Repr

/-- `resolve_owner`: `raise NotImplementedError` on every invocation. -/
def resolve_owner (_self : FBThreatExchangeSignalExchangeAPI) (_id : Int) :
    Except PyError String :=
  Except.error PyError.notImplementedError

/-- `report_seen`: `raise NotImplementedError` on every invocation. -/
def report_seen (_self : FBThreatExchangeSignalExchangeAPI)
    (_collab : FBThreatExchangeCollabConfig) (_s_type : SignalTypeDecl)
    (_signal : String) (_metadata : FBThreatExchangeIndicatorRecord) :
    Except PyError Unit :=
  Except.error PyError.notImplementedError

/-- `report_opinion`: `raise NotImplementedError` on every invocation. -/
def report_opinion (_self : FBThreatExchangeSignalExchangeAPI)
    (_collab : FBThreatExchangeCollabConfig) (_s_type : SignalTypeDecl)
    (_signal : String) (_opinion : SignalOpinion) :
    Except PyError Unit :=
  Except.error PyError.notImplementedError

/-! ## Helper definitions for the verification -/

/-- Invariant: every entry of the opinion dict has its owner field equal to
its key. -/
def entriesOwnerEq (d : List (Int × FBThreatExchangeOpinion)) : Prop :=
  ∀ p ∈ d, p.2.owner = p.1

/-- The explicit-opinion dict `from_threatexchange_json` ends up with
(projection of its descriptor fold). -/
def explicitFinal (u : ThreatUpdateJSON) : List (Int × FBThreatExchangeOpinion) :=
  u.descriptors.foldl (fun e td => dictInsert e td.owner (opinionOfDescriptor td)) []

/-- All reactions of an update, in descriptor order. -/
def allReactions (u : ThreatUpdateJSON) : List (String × Int) :=
  (u.descriptors.map (fun td => td.reactions)).flatten

/-- The implicit-opinion dict `from_threatexchange_json` ends up with. -/
def implicitFinal (u : ThreatUpdateJSON) : List (Int × SignalOpinionCategory) :=
  (allReactions u).foldl reactionStep []

/-- The final opinion dict of `from_threatexchange_json`. -/
def finalOpinions (u : ThreatUpdateJSON) : List (Int × FBThreatExchangeOpinion) :=
  (implicitFinal u).foldl implicitAdd (explicitFinal u)

/-! ## Spec-side definition for the refinement check of the projection filter -/

/-- Following the spec's words for Signal Projection, step 4.4a: keep an
opinion iff "the candidate tag occurs as substring of some opinion tag".
To be compared with `applicable_opinions`, which is the source's filter. -/
def claimedApplicableOpinions (ops : List FBThreatExchangeOpinion) (tag : String) :
    List FBThreatExchangeOpinion :=
  ops.filter (fun o => o.tags.any (fun t => strIn tag t))

/-! ## Concrete instances used by counterexamples and witnesses -/

/-- An update with only a time (no descriptors), for fetch-loop instances. -/
def uT (t : Int) : ThreatUpdateJSON := ⟨"X", "i", t, false, []⟩

/-- C2 counterexample raw update: one descriptor from owner 1, with a
`DISAGREE_WITH_TAGS` reaction from owner 2 followed by a `HELPFUL` reaction
from owner 2. -/
def uC2cex : ThreatUpdateJSON :=
  ⟨"HASH_MD5", "abc", 10, false,
   [⟨7, 1, "MALICIOUS", .plain [], [("DISAGREE_WITH_TAGS", 2), ("HELPFUL", 2)]⟩]⟩

/-- C2 witness raw update: a single `HELPFUL` reaction from owner 2. -/
def uC2w : ThreatUpdateJSON :=
  ⟨"HASH_MD5", "abc", 10, false, [⟨7, 1, "MALICIOUS", .plain [], [("HELPFUL", 2)]⟩]⟩

/-- The record `from_threatexchange_json` produces for `uC2w`. -/
def recC2w : FBThreatExchangeIndicatorRecord :=
  ⟨[⟨1, .POSITIVE_CLASS, [], 7⟩, ⟨2, .POSITIVE_CLASS, [], REACTION_DESCRIPTOR_ID⟩]⟩

/-- C5 witness raw update: an explicit descriptor from owner 10 and a
`DISAGREE_WITH_TAGS` reaction from the same owner 10. -/
def uC5w : ThreatUpdateJSON :=
  ⟨"HASH_MD5", "abc", 0, false,
   [⟨5, 10, "MALICIOUS", .plain ["t1"], [("DISAGREE_WITH_TAGS", 10)]⟩]⟩

/-- The record `from_threatexchange_json` produces for `uC5w`. -/
def recC5w : FBThreatExchangeIndicatorRecord :=
  ⟨[⟨10, .POSITIVE_CLASS, ["t1"], 5⟩]⟩

/-- C7 instances: a delete-marked update, an update with no descriptors, and
a normal one-descriptor update. -/
def uC7del : ThreatUpdateJSON := ⟨"HASH_MD5", "abc", 10, true, []⟩

def uC7empty : ThreatUpdateJSON := ⟨"HASH_MD5", "abc", 10, false, []⟩

def uC7ok : ThreatUpdateJSON :=
  ⟨"HASH_MD5", "abc", 10, false, [⟨1, 10, "MALICIOUS", .plain ["t1"], []⟩]⟩

/-- The record `from_threatexchange_json` produces for `uC7ok`. -/
def recC7ok : FBThreatExchangeIndicatorRecord :=
  ⟨[⟨10, .POSITIVE_CLASS, ["t1"], 1⟩]⟩

/-- C1 counterexample record store: one record with two opinions, one tagged
exactly `"abc"`, the other tagged `"abcd"`. -/
def opC1a : FBThreatExchangeOpinion := ⟨1, .POSITIVE_CLASS, ["abc"], 1⟩

def opC1b : FBThreatExchangeOpinion := ⟨2, .POSITIVE_CLASS, ["abcd"], 2⟩

def storeC1cex : Store := ⟨[[opC1a, opC1b]]⟩

/-- C1 witness store: record 0 (tag `"t0"`) is the existing entry, record 1
(tag `"tg"`) is merged into it under candidate tag `"tg"`. -/
def opC1c : FBThreatExchangeOpinion := ⟨1, .POSITIVE_CLASS, ["t0"], 1⟩

def opC1d : FBThreatExchangeOpinion := ⟨2, .NEGATIVE_CLASS, ["tg"], 2⟩

def storeC1w : Store := ⟨[[opC1c], [opC1d]]⟩

/-- C10 instances: one signal type claiming two remote types with the same
required tag; two fetched records that normalize to the same signal string. -/
def opC10a : FBThreatExchangeOpinion := ⟨1, .POSITIVE_CLASS, ["tg"], 1⟩

def opC10b : FBThreatExchangeOpinion := ⟨2, .NEGATIVE_CLASS, ["tg"], 2⟩

def storeC10 : Store := ⟨[[opC10a], [opC10b]]⟩

def declC10 : SignalTypeDecl :=
  ⟨"VideoMD5", some (.typeTagMap [("URI", some "tg"), ("RAW_URI", some "tg")]),
   fun _ s _ => s⟩

def fetchedC10 : List ((String × String) × Option Ref) :=
  [(("URI", "x"), some 0), (("RAW_URI", "x"), some 1)]

/-! ## Lemmas about the dict model -/

theorem dictGet_dictInsert_self {K V : Type} [DecidableEq K]
    (d : List (K × V)) (k : K) (v : V) :
    dictGet (dictInsert d k v) k = some v := by
  induction d with
  | nil => simp [dictInsert, dictGet]
  | cons p rest ih =>
    by_cases h : p.1 = k <;>
      simp [dictInsert, dictGet, h, ih]

theorem dictGet_dictInsert_ne {K V : Type} [DecidableEq K]
    (d : List (K × V)) (k k' : K) (v : V) (h : k' ≠ k) :
    dictGet (dictInsert d k v) k' = dictGet d k' := by
  have hk : ¬(k = k') := fun hh => h hh.symm
  induction d with
  | nil => simp [dictInsert, dictGet, hk]
  | cons p rest ih =>
    obtain ⟨pk, pv⟩ := p
    by_cases hp : pk = k
    · subst hp
      simp [dictInsert, dictGet, hk]
    · by_cases hpk : pk = k'
      · simp [dictInsert, dictGet, hp, hpk, h]
      · simp [dictInsert, dictGet, hp, hpk, ih]

theorem dictGet_foldl_insert {α K V : Type} [DecidableEq K]
    (key : α → K) (val : α → V) (l : List α) (d0 : List (K × V)) (k : K) :
    dictGet (l.foldl (fun d x => dictInsert d (key x) (val x)) d0) k =
      (l.reverse.find? (fun x => decide (key x = k))).elim (dictGet d0 k)
        (fun x => some (val x)) := by
  induction l generalizing d0 with
  | nil => simp [Option.elim]
  | cons x xs ih =>
    rw [List.foldl_cons, ih, List.reverse_cons, List.find?_append]
    cases hfind : xs.reverse.find? (fun y => decide (key y = k)) with
    | some y => simp [hfind, Option.elim]
    | none =>
      simp only [hfind, Option.none_or]
      by_cases hk : key x = k
      · subst hk
        simp [List.find?, dictGet_dictInsert_self, Option.elim]
      · simp [List.find?, hk, Option.elim,
          dictGet_dictInsert_ne d0 (key x) k (val x) (fun hh => hk hh.symm)]

theorem mem_keys_dictInsert {K V : Type} [DecidableEq K]
    (d : List (K × V)) (k k' : K) (v : V)
    (h : k' ∈ (dictInsert d k v).map Prod.fst) :
    k' ∈ d.map Prod.fst ∨ k' = k := by
  induction d with
  | nil =>
    simp only [dictInsert, List.map_cons, List.map_nil, List.mem_singleton] at h
    exact Or.inr h
  | cons p rest ih =>
    obtain ⟨pk, pv⟩ := p
    by_cases hp : pk = k
    · simp only [dictInsert, if_pos hp, List.map_cons, List.mem_cons] at h
      simp only [List.map_cons, List.mem_cons]
      tauto
    · simp only [dictInsert, if_neg hp, List.map_cons, List.mem_cons] at h
      simp only [List.map_cons, List.mem_cons]
      rcases h with h | h
      · exact Or.inl (Or.inl h)
      · rcases ih h with h' | h'
        · exact Or.inl (Or.inr h')
        · exact Or.inr h'

theorem keysNodup_dictInsert {K V : Type} [DecidableEq K]
    (d : List (K × V)) (k : K) (v : V)
    (h : (d.map Prod.fst).Nodup) : ((dictInsert d k v).map Prod.fst).Nodup := by
  induction d with
  | nil => simp [dictInsert]
  | cons p rest ih =>
    obtain ⟨pk, pv⟩ := p
    rw [List.map_cons, List.nodup_cons] at h
    by_cases hp : pk = k
    · simp only [dictInsert, if_pos hp, List.map_cons, List.nodup_cons]
      exact ⟨h.1, h.2⟩
    · simp only [dictInsert, if_neg hp, List.map_cons, List.nodup_cons]
      refine ⟨fun hmem => ?_, ih h.2⟩
      rcases mem_keys_dictInsert rest k pk v hmem with h' | h'
      · exact h.1 h'
      · exact hp h'

theorem keysNodup_foldl_insert {α K V : Type} [DecidableEq K]
    (key : α → K) (val : α → V) (l : List α) (d0 : List (K × V))
    (h : (d0.map Prod.fst).Nodup) :
    ((l.foldl (fun d x => dictInsert d (key x) (val x)) d0).map Prod.fst).Nodup := by
  induction l generalizing d0 with
  | nil => exact h
  | cons x xs ih =>
    exact ih _ (keysNodup_dictInsert d0 (key x) (val x) h)

theorem dictGet_eq_none_iff {K V : Type} [DecidableEq K]
    (d : List (K × V)) (k : K) :
    dictGet d k = none ↔ k ∉ d.map Prod.fst := by
  induction d with
  | nil => simp [dictGet]
  | cons p rest ih =>
    obtain ⟨pk, pv⟩ := p
    by_cases hp : pk = k
    · subst hp
      simp [dictGet]
    · simp [dictGet, hp, ih, Ne.symm hp]

/-! ## Lemmas about the fetch loop -/

theorem le_foldlMax (l : List ThreatUpdateJSON) (init : Int) :
    init ≤ l.foldl (fun a u => max u.time a) init := by
  induction l generalizing init with
  | nil => exact le_refl init
  | cons x xs ih => exact le_trans (le_max_right x.time init) (ih _)

theorem mem_le_foldlMax (l : List ThreatUpdateJSON) :
    ∀ (init : Int) (u : ThreatUpdateJSON), u ∈ l →
      u.time ≤ l.foldl (fun a u => max u.time a) init := by
  induction l with
  | nil => intro init u hu; cases hu
  | cons x xs ih =>
    intro init u hu
    rcases List.mem_cons.mp hu with h | h
    · subst h
      exact le_trans (le_max_left u.time init) (le_foldlMax xs _)
    · exact ih _ u h

theorem fetchLoop_length (tm : TypeMapping) (now : Int)
    (pages : List (List ThreatUpdateJSON)) :
    ∀ (batch : List ThreatUpdateJSON) (highest : Int),
      (fetchLoop tm now pages batch highest).length = pages.length := by
  induction pages with
  | nil => intro batch highest; simp [fetchLoop]
  | cons page rest ih =>
    intro batch highest
    simp [fetchLoop, ih]

theorem fetchLoop_get (tm : TypeMapping) (now : Int)
    (pages : List (List ThreatUpdateJSON)) :
    ∀ (batch : List ThreatUpdateJSON) (highest : Int) (i : Nat)
      (h : i < (fetchLoop tm now pages batch highest).length),
      (fetchLoop tm now pages batch highest).get ⟨i, h⟩ =
        ⟨((batch ++ (pages.take (i+1)).flatten).foldl (fun d u =>
            dictInsert d (u.threat_type, u.indicator) (_indicator_applies u tm)) []),
         ⟨((pages.take (i+1)).flatten).foldl (fun a u => max u.time a) highest, now⟩⟩ := by
  induction pages with
  | nil => intro batch highest i h; simp [fetchLoop] at h
  | cons page rest ih =>
    intro batch highest i h
    cases i with
    | zero =>
      simp [fetchLoop, List.take_succ_cons]
    | succ n =>
      have h' : n < (fetchLoop tm now rest (batch ++ page)
          (page.foldl (fun a u => max u.time a) highest)).length := by
        have h2 := h
        simp only [fetchLoop, List.length_cons] at h2
        omega
      have hstep : (fetchLoop tm now (page :: rest) batch highest).get ⟨n + 1, h⟩ =
          (fetchLoop tm now rest (batch ++ page)
            (page.foldl (fun a u => max u.time a) highest)).get ⟨n, h'⟩ := by
        simp [fetchLoop]
      rw [hstep, ih (batch ++ page) (page.foldl (fun a u => max u.time a) highest) n h']
      simp [List.take_succ_cons, List.flatten_cons, List.foldl_append,
        List.append_assoc]

/-! ## Lemmas about `from_threatexchange_json` -/
theorem descriptors_foldl_fst (tds : List ThreatDescriptorJSON) :
    ∀ (acc : List (Int × FBThreatExchangeOpinion) × List (Int × SignalOpinionCategory)),
      (tds.foldl descriptorStep acc).1 =
        tds.foldl (fun e td => dictInsert e td.owner (opinionOfDescriptor td)) acc.1 := by
  induction tds with
  | nil => intro acc; rfl
  | cons td rest ih =>
    intro acc
    rw [List.foldl_cons, List.foldl_cons, ih]
    rfl

theorem descriptors_foldl_snd (tds : List ThreatDescriptorJSON) :
    ∀ (acc : List (Int × FBThreatExchangeOpinion) × List (Int × SignalOpinionCategory)),
      (tds.foldl descriptorStep acc).2 =
        ((tds.map (fun td => td.reactions)).flatten).foldl reactionStep acc.2 := by
  induction tds with
  | nil => intro acc; rfl
  | cons td rest ih =>
    intro acc
    rw [List.foldl_cons, ih, List.map_cons, List.flatten_cons, List.foldl_append]
    rfl

theorem reaction_fold_get (rs : List (String × Int)) :
    ∀ (d0 : List (Int × SignalOpinionCategory)) (o : Int),
      dictGet (rs.foldl reactionStep d0) o =
        if rs.any (fun r => decide (r.1 = "HELPFUL" ∧ r.2 = o)) then
          some SignalOpinionCategory.POSITIVE_CLASS
        else if rs.any (fun r => decide (r.1 = "DISAGREE_WITH_TAGS" ∧ r.2 = o)) then
          (if dictGet d0 o = none then some SignalOpinionCategory.NEGATIVE_CLASS
           else dictGet d0 o)
        else dictGet d0 o := by
  induction rs with
  | nil => intro d0 o; simp
  | cons r rest ih =>
    intro d0 o
    obtain ⟨rk, ro⟩ := r
    rw [List.foldl_cons, ih]
    by_cases hH : rk = "HELPFUL"
    · subst hH
      have heq : reactionStep d0 ("HELPFUL", ro) =
          dictInsert d0 ro SignalOpinionCategory.POSITIVE_CLASS := by
        simp [reactionStep]
      by_cases ho : ro = o
      · subst ho
        simp only [heq, dictGet_dictInsert_self, List.any_cons]
        simp
      · have hne : dictGet (dictInsert d0 ro SignalOpinionCategory.POSITIVE_CLASS) o =
            dictGet d0 o :=
          dictGet_dictInsert_ne d0 ro o _ (fun hh => ho hh.symm)
        simp only [heq, hne, List.any_cons]
        simp [ho]
    · by_cases hD : rk = "DISAGREE_WITH_TAGS"
      · subst hD
        have hs : ¬(("DISAGREE_WITH_TAGS" : String) = "HELPFUL") := by decide
        by_cases ho : ro = o
        · subst ho
          by_cases hnone : dictGet d0 ro = none
          · have heq : reactionStep d0 ("DISAGREE_WITH_TAGS", ro) =
                dictInsert d0 ro SignalOpinionCategory.NEGATIVE_CLASS := by
              simp [reactionStep, hnone, hs]
            simp only [heq, dictGet_dictInsert_self, List.any_cons]
            simp [hnone, hs]
          · have heq : reactionStep d0 ("DISAGREE_WITH_TAGS", ro) = d0 := by
              simp [reactionStep, hnone, hs]
            simp only [heq, List.any_cons]
            simp [hnone, hs]
        · have hstep : dictGet (reactionStep d0 ("DISAGREE_WITH_TAGS", ro)) o =
              dictGet d0 o := by
            by_cases hnone : dictGet d0 ro = none
            · have heq : reactionStep d0 ("DISAGREE_WITH_TAGS", ro) =
                  dictInsert d0 ro SignalOpinionCategory.NEGATIVE_CLASS := by
                simp [reactionStep, hnone, hs]
              rw [heq]
              exact dictGet_dictInsert_ne d0 ro o _ (fun hh => ho hh.symm)
            · have heq : reactionStep d0 ("DISAGREE_WITH_TAGS", ro) = d0 := by
                simp [reactionStep, hnone, hs]
              rw [heq]
          simp only [hstep, List.any_cons]
          simp [ho]
      · have hstep : reactionStep d0 (rk, ro) = d0 := by
          simp [reactionStep, hH, hD]
        simp only [hstep, List.any_cons]
        simp [hH, hD]

theorem implicitPass_preserves (impl : List (Int × SignalOpinionCategory)) :
    ∀ (e : List (Int × FBThreatExchangeOpinion)) (o : Int)
      (v : FBThreatExchangeOpinion), dictGet e o = some v →
      dictGet (impl.foldl implicitAdd e) o = some v := by
  induction impl with
  | nil => intro e o v h; exact h
  | cons p rest ih =>
    intro e o v h
    rw [List.foldl_cons]
    apply ih
    by_cases hp : p.1 = o
    · subst hp
      simp [implicitAdd, h]
    · simp only [implicitAdd]
      split_ifs
      · rw [dictGet_dictInsert_ne e p.1 o _ (fun hh => hp hh.symm)]
        exact h
      · exact h

theorem implicitPass_absent (impl : List (Int × SignalOpinionCategory)) :
    ∀ (e : List (Int × FBThreatExchangeOpinion)) (o : Int),
      (impl.map Prod.fst).Nodup → dictGet e o = none →
      dictGet (impl.foldl implicitAdd e) o =
        (dictGet impl o).map (fun c =>
          (⟨o, c, [], REACTION_DESCRIPTOR_ID⟩ : FBThreatExchangeOpinion)) := by
  induction impl with
  | nil => intro e o _ h; simp [dictGet, h]
  | cons p rest ih =>
    intro e o hnd h
    obtain ⟨pk, pc⟩ := p
    rw [List.map_cons, List.nodup_cons] at hnd
    rw [List.foldl_cons]
    by_cases hp : pk = o
    · subst hp
      have heq : implicitAdd e (pk, pc) =
          dictInsert e pk ⟨pk, pc, [], REACTION_DESCRIPTOR_ID⟩ := by
        simp [implicitAdd, h]
      rw [heq]
      rw [implicitPass_preserves rest _ pk _ (dictGet_dictInsert_self e pk _)]
      simp [dictGet]
    · have he2 : dictGet (implicitAdd e (pk, pc)) o = none := by
        simp only [implicitAdd]
        split_ifs
        · rw [dictGet_dictInsert_ne e pk o _ (fun hh => hp hh.symm)]
          exact h
        · exact h
      rw [ih _ o hnd.2 he2]
      simp [dictGet, hp]

theorem entriesOwnerEq_nil : entriesOwnerEq [] := by
  intro p hp
  cases hp

theorem entriesOwnerEq_dictInsert (d : List (Int × FBThreatExchangeOpinion)) :
    ∀ (k : Int) (v : FBThreatExchangeOpinion), v.owner = k → entriesOwnerEq d →
      entriesOwnerEq (dictInsert d k v) := by
  induction d with
  | nil =>
    intro k v hv _ p hp
    simp only [dictInsert, List.mem_singleton] at hp
    subst hp
    exact hv
  | cons q rest ih =>
    intro k v hv h p hp
    by_cases hq : q.1 = k
    · simp only [dictInsert, if_pos hq, List.mem_cons] at hp
      rcases hp with hp | hp
      · subst hp
        exact hv.trans hq.symm
      · exact h p (List.mem_cons_of_mem q hp)
    · simp only [dictInsert, if_neg hq, List.mem_cons] at hp
      rcases hp with hp | hp
      · subst hp
        exact h q (List.mem_cons_self q rest)
      · exact ih k v hv (fun x hx => h x (List.mem_cons_of_mem q hx)) p hp

theorem entriesOwnerEq_explicit_fold (tds : List ThreatDescriptorJSON) :
    ∀ (e : List (Int × FBThreatExchangeOpinion)), entriesOwnerEq e →
      entriesOwnerEq (tds.foldl (fun e td =>
        dictInsert e td.owner (opinionOfDescriptor td)) e) := by
  induction tds with
  | nil => intro e h; exact h
  | cons td rest ih =>
    intro e h
    rw [List.foldl_cons]
    exact ih _ (entriesOwnerEq_dictInsert e td.owner _ rfl h)

theorem entriesOwnerEq_implicit_fold (impl : List (Int × SignalOpinionCategory)) :
    ∀ (e : List (Int × FBThreatExchangeOpinion)), entriesOwnerEq e →
      entriesOwnerEq (impl.foldl implicitAdd e) := by
  induction impl with
  | nil => intro e h; exact h
  | cons p rest ih =>
    intro e h
    rw [List.foldl_cons]
    apply ih
    simp only [implicitAdd]
    split_ifs
    · exact entriesOwnerEq_dictInsert e p.1 _ rfl h
    · exact h

theorem keysNodup_explicit_fold (tds : List ThreatDescriptorJSON) :
    ∀ (e : List (Int × FBThreatExchangeOpinion)), (e.map Prod.fst).Nodup →
      ((tds.foldl (fun e td =>
        dictInsert e td.owner (opinionOfDescriptor td)) e).map Prod.fst).Nodup := by
  induction tds with
  | nil => intro e h; exact h
  | cons td rest ih =>
    intro e h
    rw [List.foldl_cons]
    exact ih _ (keysNodup_dictInsert e td.owner _ h)

theorem keysNodup_implicit_fold (impl : List (Int × SignalOpinionCategory)) :
    ∀ (e : List (Int × FBThreatExchangeOpinion)), (e.map Prod.fst).Nodup →
      ((impl.foldl implicitAdd e).map Prod.fst).Nodup := by
  induction impl with
  | nil => intro e h; exact h
  | cons p rest ih =>
    intro e h
    rw [List.foldl_cons]
    apply ih
    simp only [implicitAdd]
    split_ifs
    · exact keysNodup_dictInsert e p.1 _ h
    · exact h

theorem find?_owner_eq_dictGet (d : List (Int × FBThreatExchangeOpinion)) :
    ∀ (o : Int), entriesOwnerEq d →
      (d.map Prod.snd).find? (fun op => decide (op.owner = o)) = dictGet d o := by
  induction d with
  | nil => intro o _; rfl
  | cons p rest ih =>
    intro o h
    have hp := h p (List.mem_cons_self p rest)
    have htail : entriesOwnerEq rest := fun x hx => h x (List.mem_cons_of_mem p hx)
    by_cases hk : p.1 = o
    · have : p.2.owner = o := hp.trans hk
      simp [List.find?, dictGet, hk, this]
    · have : ¬(p.2.owner = o) := fun hh => hk (hp.symm.trans hh)
      simp [List.find?, dictGet, hk, this, ih o htail]

theorem values_owner_eq_keys (d : List (Int × FBThreatExchangeOpinion)) :
    entriesOwnerEq d →
      (d.map Prod.snd).map (fun op => op.owner) = d.map Prod.fst := by
  induction d with
  | nil => intro _; rfl
  | cons p rest ih =>
    intro h
    have hp := h p (List.mem_cons_self p rest)
    have htail : entriesOwnerEq rest := fun x hx => h x (List.mem_cons_of_mem p hx)
    simp [ih htail, hp]

theorem keysNodup_reaction_fold (rs : List (String × Int)) :
    ∀ (d0 : List (Int × SignalOpinionCategory)), (d0.map Prod.fst).Nodup →
      ((rs.foldl reactionStep d0).map Prod.fst).Nodup := by
  induction rs with
  | nil => intro d0 h; exact h
  | cons r rest ih =>
    intro d0 h
    rw [List.foldl_cons]
    apply ih
    simp only [reactionStep]
    split_ifs
    · exact keysNodup_dictInsert d0 r.2 _ h
    · exact keysNodup_dictInsert d0 r.2 _ h
    · exact h

theorem from_json_eq (u : ThreatUpdateJSON) (h : u.should_delete = false) :
    from_threatexchange_json u =
      if finalOpinions u = [] then none
      else some ⟨(finalOpinions u).map Prod.snd⟩ := by
  simp only [from_threatexchange_json, h, Bool.false_eq_true, if_false]
  rw [finalOpinions, implicitFinal, explicitFinal, allReactions]
  rw [descriptors_foldl_fst u.descriptors ([], []),
    descriptors_foldl_snd u.descriptors ([], [])]

theorem finalOpinions_ownerEq (u : ThreatUpdateJSON) :
    entriesOwnerEq (finalOpinions u) :=
  entriesOwnerEq_implicit_fold _ _
    (entriesOwnerEq_explicit_fold _ _ entriesOwnerEq_nil)

theorem finalOpinions_keysNodup (u : ThreatUpdateJSON) :
    ((finalOpinions u).map Prod.fst).Nodup :=
  keysNodup_implicit_fold _ _
    (keysNodup_explicit_fold _ _ (by simp))

/-! ## Claim C7 -/

/-- C7: `from_threatexchange_json` returns no record (`none`) for every raw
update carrying the delete marker, and for every update whose parse yields
zero opinions (for example, empty `descriptors.data`); it never returns an
indicator record whose opinion list is empty. -/
theorem claim_C7_parse_drops (u : ThreatUpdateJSON) :
    (u.should_delete = true → from_threatexchange_json u = none) ∧
    (u.descriptors = [] → from_threatexchange_json u = none) ∧
    (∀ rec, from_threatexchange_json u = some rec → rec.opinions ≠ []) := by
  refine ⟨fun h => by simp [from_threatexchange_json, h], fun h => ?_, fun rec h => ?_⟩
  · cases hsd : u.should_delete with
    | false =>
      rw [from_json_eq u hsd]
      simp [finalOpinions, implicitFinal, explicitFinal, allReactions, h]
    | true => simp [from_threatexchange_json, hsd]
  · cases hsd : u.should_delete with
    | false =>
      rw [from_json_eq u hsd] at h
      split_ifs at h with hf
      simp only [Option.some.injEq] at h
      subst h
      intro hnil
      have : (finalOpinions u).map Prod.snd = [] := hnil
      exact hf (List.map_eq_nil_iff.mp this)
    | true => simp [from_threatexchange_json, hsd] at h

/-- Witness for C7 at concrete inputs: the delete-marked update and the
descriptor-less update parse to `none`, and the parsed normal record has a
non-empty opinion list. -/
theorem claim_C7_witness :
    from_threatexchange_json uC7del = none ∧
    from_threatexchange_json uC7empty = none ∧
    from_threatexchange_json uC7ok = some recC7ok ∧
    recC7ok.opinions ≠ [] :=
  ⟨(claim_C7_parse_drops uC7del).1 rfl,
   (claim_C7_parse_drops uC7empty).2.1 rfl,
   by decide,
   (claim_C7_parse_drops uC7ok).2.2 recC7ok (by decide)⟩

/-! ## Claim C5 -/

/-- C5: every record produced by one raw-record parse has pairwise-distinct
opinion owners (at most one opinion per owner), and for every owner with an
explicit descriptor the single opinion for that owner is the explicit
descriptor-derived one (from the last descriptor of that owner in the raw
payload, carrying the status-derived category and the descriptor id), never
the reaction-derived implicit one. -/
theorem claim_C5_one_opinion_per_owner (u : ThreatUpdateJSON)
    (rec : FBThreatExchangeIndicatorRecord)
    (h : from_threatexchange_json u = some rec) :
    (rec.opinions.map (fun op => op.owner)).Nodup ∧
    (∀ (o : Int) (td : ThreatDescriptorJSON), td ∈ u.descriptors → td.owner = o →
      rec.opinions.find? (fun op => decide (op.owner = o)) =
        (u.descriptors.reverse.find? (fun td2 => decide (td2.owner = o))).elim none
          (fun td2 => some (opinionOfDescriptor td2))) := by
  have hsd : u.should_delete = false := by
    cases hsd2 : u.should_delete with
    | false => rfl
    | true => simp [from_threatexchange_json, hsd2] at h
  rw [from_json_eq u hsd] at h
  split_ifs at h with hf
  simp only [Option.some.injEq] at h
  subst h
  constructor
  · show (((finalOpinions u).map Prod.snd).map (fun op => op.owner)).Nodup
    rw [values_owner_eq_keys _ (finalOpinions_ownerEq u)]
    exact finalOpinions_keysNodup u
  · intro o td htd hto
    show ((finalOpinions u).map Prod.snd).find? (fun op => decide (op.owner = o)) = _
    rw [find?_owner_eq_dictGet (finalOpinions u) o (finalOpinions_ownerEq u)]
    have hsome : (u.descriptors.reverse.find?
        (fun td2 => decide (td2.owner = o))).isSome := by
      rw [List.find?_isSome]
      exact ⟨td, List.mem_reverse.mpr htd, by simp [hto]⟩
    obtain ⟨td0, hfind⟩ := Option.isSome_iff_exists.mp hsome
    have hex : dictGet (explicitFinal u) o = some (opinionOfDescriptor td0) := by
      rw [explicitFinal,
        dictGet_foldl_insert (fun td2 => td2.owner) opinionOfDescriptor
          u.descriptors [] o, hfind]
      rfl
    have hfin : dictGet (finalOpinions u) o = some (opinionOfDescriptor td0) := by
      rw [finalOpinions]
      exact implicitPass_preserves (implicitFinal u) (explicitFinal u) o _ hex
    rw [hfin, hfind]
    rfl

/-- Witness for C5 at a concrete input: owner 10 has both an explicit
MALICIOUS descriptor and a `DISAGREE_WITH_TAGS` reaction; the parsed record
has distinct owners and owner 10's opinion is the explicit one. -/
theorem claim_C5_witness :
    (recC5w.opinions.map (fun op => op.owner)).Nodup ∧
    recC5w.opinions.find? (fun op => decide (op.owner = 10)) =
      some ⟨10, SignalOpinionCategory.POSITIVE_CLASS, ["t1"], 5⟩ := by
  have hmain := claim_C5_one_opinion_per_owner uC5w recC5w (by decide)
  refine ⟨hmain.1, ?_⟩
  have h2 := hmain.2 10 ⟨5, 10, "MALICIOUS", .plain ["t1"], [("DISAGREE_WITH_TAGS", 10)]⟩
    (by decide) rfl
  rw [h2]
  decide

/-! ## Claim C2 -/

theorem implicitFinal_keysNodup (u : ThreatUpdateJSON) :
    ((implicitFinal u).map Prod.fst).Nodup := by
  rw [implicitFinal]
  exact keysNodup_reaction_fold _ _ (by simp)

/-- C2 (amended): for an owner with no explicit descriptor, the implicit
opinion is determined by HELPFUL-dominance, not first-seen order: it is
POSITIVE_CLASS when any `HELPFUL` reaction from that owner appears anywhere
(a later `HELPFUL` overwrites an earlier `DISAGREE_WITH_TAGS`),
NEGATIVE_CLASS when only `DISAGREE_WITH_TAGS` reactions from that owner
appear, and absent otherwise; only `DISAGREE_WITH_TAGS` is guarded by the
"no implicit opinion yet" check, so `HELPFUL` is never overridden by a later
`DISAGREE_WITH_TAGS`. -/
theorem claim_C2_implicit_reactions (u : ThreatUpdateJSON) (o : Int)
    (rec : FBThreatExchangeIndicatorRecord)
    (hsd : u.should_delete = false)
    (hnod : ∀ td ∈ u.descriptors, td.owner ≠ o)
    (h : from_threatexchange_json u = some rec) :
    rec.opinions.find? (fun op => decide (op.owner = o)) =
      (if (allReactions u).any (fun r => decide (r.1 = "HELPFUL" ∧ r.2 = o)) then
        some ⟨o, SignalOpinionCategory.POSITIVE_CLASS, [], REACTION_DESCRIPTOR_ID⟩
      else if (allReactions u).any
          (fun r => decide (r.1 = "DISAGREE_WITH_TAGS" ∧ r.2 = o)) then
        some ⟨o, SignalOpinionCategory.NEGATIVE_CLASS, [], REACTION_DESCRIPTOR_ID⟩
      else none) := by
  rw [from_json_eq u hsd] at h
  split_ifs at h with hf
  simp only [Option.some.injEq] at h
  subst h
  show ((finalOpinions u).map Prod.snd).find? (fun op => decide (op.owner = o)) = _
  rw [find?_owner_eq_dictGet (finalOpinions u) o (finalOpinions_ownerEq u)]
  have hex : dictGet (explicitFinal u) o = none := by
    rw [explicitFinal,
      dictGet_foldl_insert (fun td2 => td2.owner) opinionOfDescriptor
        u.descriptors [] o]
    have hnone : u.descriptors.reverse.find?
        (fun td2 => decide (td2.owner = o)) = none := by
      rw [List.find?_eq_none]
      intro td htd
      simp [hnod td (List.mem_reverse.mp htd)]
    rw [hnone]
    rfl
  rw [finalOpinions,
    implicitPass_absent (implicitFinal u) (explicitFinal u) o
      (implicitFinal_keysNodup u) hex]
  have hval : dictGet (implicitFinal u) o =
      if (allReactions u).any (fun r => decide (r.1 = "HELPFUL" ∧ r.2 = o)) then
        some SignalOpinionCategory.POSITIVE_CLASS
      else if (allReactions u).any
          (fun r => decide (r.1 = "DISAGREE_WITH_TAGS" ∧ r.2 = o)) then
        (if dictGet ([] : List (Int × SignalOpinionCategory)) o = none then
          some SignalOpinionCategory.NEGATIVE_CLASS
         else dictGet ([] : List (Int × SignalOpinionCategory)) o)
      else dictGet ([] : List (Int × SignalOpinionCategory)) o := by
    rw [implicitFinal]
    exact reaction_fold_get (allReactions u) [] o
  rw [hval]
  split_ifs <;> simp_all [dictGet]

/-- C2 counterexample: owner 2 reacts `DISAGREE_WITH_TAGS` first and
`HELPFUL` second (no explicit descriptor for owner 2). The claim's
"first-seen wins" rule predicts implicit NEGATIVE_CLASS for owner 2; the
code's parse yields POSITIVE_CLASS, because `HELPFUL` unconditionally
overwrites the earlier implicit opinion. -/
theorem claim_C2_counterexample :
    (from_threatexchange_json uC2cex).map (fun rec =>
      rec.opinions.find? (fun op => decide (op.owner = 2))) =
      some (some ⟨2, SignalOpinionCategory.POSITIVE_CLASS, [],
        REACTION_DESCRIPTOR_ID⟩) ∧
    SignalOpinionCategory.POSITIVE_CLASS ≠ SignalOpinionCategory.NEGATIVE_CLASS := by
  constructor
  · decide
  · decide

/-- Witness for C2 (amended) at a concrete input: a single `HELPFUL`
reaction from owner 2, which has no descriptor, yields implicit
POSITIVE_CLASS. -/
theorem claim_C2_witness :
    recC2w.opinions.find? (fun op => decide (op.owner = 2)) =
      some ⟨2, SignalOpinionCategory.POSITIVE_CLASS, [], REACTION_DESCRIPTOR_ID⟩ :=
  (claim_C2_implicit_reactions uC2w 2 recC2w rfl (by decide) (by decide)).trans
    (by decide)

/-! ## Claim C3 -/

/-- C3 (amended): every emitted checkpoint's watermark equals the maximum
update time over the whole accumulated batch (0 when the batch is empty;
e.g. times [5,3,9,7] give 9), and watermarks are monotonically
non-decreasing within one fetch invocation. Across invocations the loop
restarts its running maximum at 0, so the new watermarks dominate the prior
checkpoint's watermark only when every update observed so far has update
time at least that watermark and at least one update has been observed. -/
theorem claim_C3_watermark (sts : List SignalTypeDecl)
    (cp : Option FBThreatExchangeCheckpoint)
    (pages : List (List ThreatUpdateJSON)) (now : Int) (i j : Nat)
    (hi : i < (fetch_iter sts cp pages now).length)
    (hj : j < (fetch_iter sts cp pages now).length) :
    (((fetch_iter sts cp pages now).get ⟨i, hi⟩).checkpoint.update_time =
      ((pages.take (i+1)).flatten).foldl (fun a u => max u.time a) 0) ∧
    (i ≤ j →
      ((fetch_iter sts cp pages now).get ⟨i, hi⟩).checkpoint.update_time ≤
      ((fetch_iter sts cp pages now).get ⟨j, hj⟩).checkpoint.update_time) ∧
    ((∀ u ∈ (pages.take (i+1)).flatten,
        cp.elim 0 (fun c => c.update_time) ≤ u.time) →
      (pages.take (i+1)).flatten ≠ [] →
      cp.elim 0 (fun c => c.update_time) ≤
        ((fetch_iter sts cp pages now).get ⟨i, hi⟩).checkpoint.update_time) := by
  have hgi : ((fetch_iter sts cp pages now).get ⟨i, hi⟩).checkpoint.update_time =
      ((pages.take (i+1)).flatten).foldl (fun a u => max u.time a) 0 := by
    show ((fetchLoop (_make_indicator_type_mapping sts) now pages [] 0).get
      ⟨i, hi⟩).checkpoint.update_time = _
    rw [fetchLoop_get]
  have hgj : ((fetch_iter sts cp pages now).get ⟨j, hj⟩).checkpoint.update_time =
      ((pages.take (j+1)).flatten).foldl (fun a u => max u.time a) 0 := by
    show ((fetchLoop (_make_indicator_type_mapping sts) now pages [] 0).get
      ⟨j, hj⟩).checkpoint.update_time = _
    rw [fetchLoop_get]
  refine ⟨hgi, fun hij => ?_, fun hall hne => ?_⟩
  · rw [hgi, hgj]
    have hsum : j + 1 = (i + 1) + (j - i) := by omega
    have hdecomp : (pages.take (j+1)).flatten =
        (pages.take (i+1)).flatten ++ ((pages.drop (i+1)).take (j - i)).flatten := by
      rw [hsum, List.take_add, List.flatten_append]
    rw [hdecomp, List.foldl_append]
    exact le_foldlMax _ _
  · rw [hgi]
    obtain ⟨u, hu⟩ := List.exists_mem_of_ne_nil _ hne
    exact le_trans (hall u hu) (mem_le_foldlMax _ _ u hu)

/-- C3 counterexample: resuming from a checkpoint with watermark 9, a page
whose only update has time 3 makes the loop emit a checkpoint with
watermark 3 < 9: the running maximum restarts at 0 on each invocation, so
the claim's unconditional cross-invocation monotonicity fails. -/
theorem claim_C3_counterexample :
    ((fetch_iter [] (some ⟨9, 0⟩) [[uT 3]] 100).map
      (fun d => d.checkpoint.update_time)) = [3] ∧
    (3 : Int) < 9 := by
  constructor
  · decide
  · decide

/-- Witness for C3 at a concrete input: one invocation with pages
[[5,3],[9,7]] emits a final checkpoint whose watermark is the batch maximum
9, and with a trusted remote (all times at least the prior watermark 0) the
first emitted watermark dominates the prior one. -/
theorem claim_C3_witness :
    (((fetch_iter [] none [[uT 5, uT 3], [uT 9, uT 7]] 50).get
        ⟨1, by decide⟩).checkpoint.update_time =
      (([[uT 5, uT 3], [uT 9, uT 7]].take 2).flatten).foldl
        (fun a u => max u.time a) 0) ∧
    ((([[uT 5, uT 3], [uT 9, uT 7]].take 2).flatten).foldl
        (fun a u => max u.time a) 0 = 9) ∧
    ((none : Option FBThreatExchangeCheckpoint).elim 0 (fun c => c.update_time) ≤
      (((fetch_iter [] none [[uT 5, uT 3], [uT 9, uT 7]] 50).get
        ⟨0, by decide⟩).checkpoint.update_time)) := by
  refine ⟨(claim_C3_watermark [] none [[uT 5, uT 3], [uT 9, uT 7]] 50 1 1
    (by decide) (by decide)).1, by decide, ?_⟩
  exact (claim_C3_watermark [] none [[uT 5, uT 3], [uT 9, uT 7]] 50 0 0
    (by decide) (by decide)).2.2 (by decide) (by decide)

/-! ## Claim C4 -/

/-- C4: after each page, the emitted delta's mapping has exactly one entry
per distinct (remote-type, indicator-string) key of the entire accumulated
batch, whose value is the parse/filter result (`_indicator_applies`) of the
last update in batch order with that key; an update that fails a check
(unknown type, delete/empty parse, no tag match) still contributes its key,
mapped to `none`, rather than being omitted. -/
theorem claim_C4_delta_mapping (sts : List SignalTypeDecl)
    (cp : Option FBThreatExchangeCheckpoint)
    (pages : List (List ThreatUpdateJSON)) (now : Int) (i : Nat)
    (hi : i < (fetch_iter sts cp pages now).length) :
    ((((fetch_iter sts cp pages now).get ⟨i, hi⟩).updates.map Prod.fst).Nodup) ∧
    (∀ k, dictGet ((fetch_iter sts cp pages now).get ⟨i, hi⟩).updates k =
      (((pages.take (i+1)).flatten).reverse.find?
        (fun u => decide ((u.threat_type, u.indicator) = k))).elim none
        (fun u => some (_indicator_applies u (_make_indicator_type_mapping sts)))) ∧
    (∀ u ∈ (pages.take (i+1)).flatten,
      dictGet ((fetch_iter sts cp pages now).get ⟨i, hi⟩).updates
        (u.threat_type, u.indicator) ≠ none) := by
  have hget : ((fetch_iter sts cp pages now).get ⟨i, hi⟩).updates =
      ((pages.take (i+1)).flatten).foldl (fun d u =>
        dictInsert d (u.threat_type, u.indicator)
          (_indicator_applies u (_make_indicator_type_mapping sts))) [] := by
    show ((fetchLoop (_make_indicator_type_mapping sts) now pages [] 0).get
      ⟨i, hi⟩).updates = _
    rw [fetchLoop_get]
    simp
  have hformula : ∀ k,
      dictGet ((fetch_iter sts cp pages now).get ⟨i, hi⟩).updates k =
        (((pages.take (i+1)).flatten).reverse.find?
          (fun u => decide ((u.threat_type, u.indicator) = k))).elim none
          (fun u => some (_indicator_applies u (_make_indicator_type_mapping sts))) := by
    intro k
    rw [hget]
    exact dictGet_foldl_insert (fun u => (u.threat_type, u.indicator))
      (fun u => _indicator_applies u (_make_indicator_type_mapping sts))
      ((pages.take (i+1)).flatten) [] k
  refine ⟨?_, hformula, fun u hu => ?_⟩
  · rw [hget]
    exact keysNodup_foldl_insert (fun u => (u.threat_type, u.indicator))
      (fun u => _indicator_applies u (_make_indicator_type_mapping sts))
      ((pages.take (i+1)).flatten) [] (by simp)
  · rw [hformula (u.threat_type, u.indicator)]
    have hsome : (((pages.take (i+1)).flatten).reverse.find?
        (fun v => decide ((v.threat_type, v.indicator) =
          (u.threat_type, u.indicator)))).isSome := by
      rw [List.find?_isSome]
      exact ⟨u, List.mem_reverse.mpr hu, by simp⟩
    obtain ⟨u0, hfind⟩ := Option.isSome_iff_exists.mp hsome
    rw [hfind]
    simp [Option.elim]

/-- Witness for C4 at a concrete input: one page with one update of an
unsupported type still contributes its key (mapped to no record), and the
delta's key list has no duplicates. -/
theorem claim_C4_witness :
    ((((fetch_iter [] none [[uT 3]] 50).get ⟨0, by decide⟩).updates.map
      Prod.fst).Nodup) ∧
    dictGet (((fetch_iter [] none [[uT 3]] 50).get ⟨0, by decide⟩).updates)
      ("X", "i") ≠ none := by
  refine ⟨(claim_C4_delta_mapping [] none [[uT 3]] 50 0 (by decide)).1, ?_⟩
  exact (claim_C4_delta_mapping [] none [[uT 3]] 50 0 (by decide)).2.2 (uT 3)
    (by decide)

/-! ## Claim C6 -/

/-- C6: `is_stale` returns true exactly when the current wall-clock time
exceeds `last_fetch_time` by more than 85×86400 seconds; a checkpoint aged
one second past that bound reports stale, one aged one second less does
not. -/
theorem claim_C6_staleness (now : Int) (cp : FBThreatExchangeCheckpoint) :
    (is_stale now cp = true ↔ now - cp.last_fetch_time > 85 * 86400) ∧
    is_stale (cp.last_fetch_time + 85 * 86400 + 1) cp = true ∧
    is_stale (cp.last_fetch_time + (85 * 86400 - 1)) cp = false := by
  refine ⟨?_, ?_, ?_⟩
  · rw [is_stale, decide_eq_true_eq]
    omega
  · rw [is_stale, decide_eq_true_eq]
    omega
  · rw [is_stale, decide_eq_false_iff_not]
    omega

/-! ## Claim C8 -/

/-- C8: `merge` concatenates the other record's opinions after this
record's opinions, in order and with no deduplication: lengths add, and a
record with opinions [a1] merged with one with opinions [b1, b2] yields
[a1, b1, b2]. -/
theorem claim_C8_merge_concat (a b : FBThreatExchangeIndicatorRecord) :
    (a.merge b).opinions = a.opinions ++ b.opinions ∧
    (a.merge b).opinions.length = a.opinions.length + b.opinions.length ∧
    (∀ (a1 b1 b2 : FBThreatExchangeOpinion),
      (FBThreatExchangeIndicatorRecord.merge ⟨[a1]⟩ ⟨[b1, b2]⟩).opinions =
        [a1, b1, b2]) :=
  ⟨rfl, by simp [FBThreatExchangeIndicatorRecord.merge], fun _ _ _ => rfl⟩

/-! ## Claim C9 -/

/-- C9: the write-path operations `resolve_owner`, `report_seen`, and
`report_opinion` raise `NotImplementedError` on every invocation — they are
explicit contract stubs, never silent no-ops. -/
theorem claim_C9_not_implemented (self : FBThreatExchangeSignalExchangeAPI)
    (i : Int) (collab : FBThreatExchangeCollabConfig) (st : SignalTypeDecl)
    (sig : String) (md : FBThreatExchangeIndicatorRecord) (op : SignalOpinion) :
    resolve_owner self i = Except.error PyError.notImplementedError ∧
    report_seen self collab st sig md = Except.error PyError.notImplementedError ∧
    report_opinion self collab st sig op = Except.error PyError.notImplementedError :=
  ⟨rfl, rfl, rfl⟩

/-! ## Store access lemmas (for the projection claims) -/

theorem getD_set_self {α : Type} (d : α) :
    ∀ (l : List α) (i : Nat) (v : α), i < l.length → (l.set i v).getD i d = v := by
  intro l
  induction l with
  | nil => intro i v h; simp at h
  | cons x xs ih =>
    intro i v h
    cases i with
    | zero => rfl
    | succ n => exact ih n v (Nat.lt_of_succ_lt_succ h)

theorem getD_append_lt {α : Type} (d : α) :
    ∀ (l l2 : List α) (i : Nat), i < l.length → (l ++ l2).getD i d = l.getD i d := by
  intro l
  induction l with
  | nil => intro l2 i h; simp at h
  | cons x xs ih =>
    intro l2 i h
    cases i with
    | zero => rfl
    | succ n => exact ih l2 n (Nat.lt_of_succ_lt_succ h)

theorem getD_append_len {α : Type} (d : α) :
    ∀ (l : List α) (v : α), (l ++ [v]).getD l.length d = v := by
  intro l
  induction l with
  | nil => intro v; rfl
  | cons x xs ih => intro v; exact ih v

theorem readRef_writeRef_self (st : Store) (r : Ref)
    (ops : List FBThreatExchangeOpinion) (h : r < st.recs.length) :
    readRef (writeRef st r ops) r = ops :=
  getD_set_self [] st.recs r ops h

theorem readRef_allocRec_old (st : Store) (ops : List FBThreatExchangeOpinion)
    (r : Ref) (h : r < st.recs.length) :
    readRef (allocRec st ops).1 r = readRef st r :=
  getD_append_lt [] st.recs [ops] r h

theorem readRef_allocRec_new (st : Store) (ops : List FBThreatExchangeOpinion) :
    readRef (allocRec st ops).1 (allocRec st ops).2 = ops :=
  getD_append_len [] st.recs ops

/-! ## Claim C1 -/

/-- C1 (amended): in Signal Projection, a non-wildcard candidate tag entry
applies to a record only when the candidate tag is exactly one of the
record's opinion tags (set membership, not substring); when it applies, the
opinions kept are exactly those whose tag set contains a tag occurring as a
substring OF the candidate tag (`t in tag`, the reverse direction of the
claim's wording); if no opinion survives the filter, the signal type is
skipped for this record (nothing is inserted and the store is unchanged),
and on the merge path the surviving opinions are appended to the existing
record. -/
theorem claim_C1_tag_filter (store : Store) (md : Ref) (tg : String) :
    (∀ (ts ss : String) (its : List String) (acc : SignalTypeDict × Store)
        (stl : List SignalTypeDecl), its.contains tg = false →
        processTagEntry ts ss md its acc (some tg, stl) = acc) ∧
    ((_merge_record_for_signal_type store md (some tg) none).1 = none ↔
      applicable_opinions (readRef store md) tg = []) ∧
    (∀ r, (_merge_record_for_signal_type store md (some tg) none).1 = some r →
      readRef (_merge_record_for_signal_type store md (some tg) none).2 r =
        applicable_opinions (readRef store md) tg) ∧
    (∀ o, o ∈ applicable_opinions (readRef store md) tg ↔
      (o ∈ readRef store md ∧ ∃ t ∈ o.tags, strIn t tg = true)) ∧
    (∀ e, e < store.recs.length →
      applicable_opinions (readRef store md) tg ≠ [] →
      (_merge_record_for_signal_type store md (some tg) (some e)).1 = none ∧
      readRef (_merge_record_for_signal_type store md (some tg) (some e)).2 e =
        readRef store e ++ applicable_opinions (readRef store md) tg) := by
  refine ⟨?_, ?_, ?_, ?_, ?_⟩
  · intro ts ss its acc stl h
    have hmem : ¬tg ∈ its := by simpa using h
    simp [processTagEntry, hmem]
  · by_cases happ : applicable_opinions (readRef store md) tg = []
    · simp [_merge_record_for_signal_type, happ]
    · by_cases hlen : (applicable_opinions (readRef store md) tg).length ≠
          (readRef store md).length
      · simp [_merge_record_for_signal_type, happ, hlen, finishMerge]
      · simp [_merge_record_for_signal_type, happ, hlen, finishMerge]
  · intro r hr
    by_cases happ : applicable_opinions (readRef store md) tg = []
    · simp [_merge_record_for_signal_type, happ] at hr
    · by_cases hlen : (applicable_opinions (readRef store md) tg).length ≠
          (readRef store md).length
      · have heq : _merge_record_for_signal_type store md (some tg) none =
            (some ((allocRec store (applicable_opinions (readRef store md) tg)).2),
             (allocRec store (applicable_opinions (readRef store md) tg)).1) := by
          simp [_merge_record_for_signal_type, happ, hlen, finishMerge]
        rw [heq] at hr ⊢
        simp only [Option.some.injEq] at hr
        subst hr
        exact readRef_allocRec_new store _
      · have hall : applicable_opinions (readRef store md) tg = readRef store md :=
          (List.filter_sublist _).eq_of_length (not_ne_iff.mp hlen)
        have heq : _merge_record_for_signal_type store md (some tg) none =
            (some md, store) := by
          simp [_merge_record_for_signal_type, happ, hlen, finishMerge]
        rw [heq] at hr ⊢
        simp only [Option.some.injEq] at hr
        subst hr
        exact hall.symm
  · intro o
    simp [applicable_opinions, List.mem_filter]
  · intro e he hne
    by_cases hlen : (applicable_opinions (readRef store md) tg).length ≠
        (readRef store md).length
    · have heq : _merge_record_for_signal_type store md (some tg) (some e) =
          (none, writeRef (allocRec store
              (applicable_opinions (readRef store md) tg)).1 e
            (readRef (allocRec store
                (applicable_opinions (readRef store md) tg)).1 e ++
             readRef (allocRec store
                (applicable_opinions (readRef store md) tg)).1
               (allocRec store (applicable_opinions (readRef store md) tg)).2)) := by
        simp [_merge_record_for_signal_type, hne, hlen, finishMerge]
      rw [heq]
      refine ⟨rfl, ?_⟩
      have he2 : e < (allocRec store
          (applicable_opinions (readRef store md) tg)).1.recs.length := by
        simp [allocRec]
        omega
      rw [readRef_writeRef_self _ _ _ he2,
        readRef_allocRec_old store _ e he, readRef_allocRec_new store _]
    · have hall : applicable_opinions (readRef store md) tg = readRef store md :=
        (List.filter_sublist _).eq_of_length (not_ne_iff.mp hlen)
      have heq : _merge_record_for_signal_type store md (some tg) (some e) =
          (none, writeRef store e (readRef store e ++ readRef store md)) := by
        simp [_merge_record_for_signal_type, hne, hlen, finishMerge]
      rw [heq]
      refine ⟨rfl, ?_⟩
      rw [readRef_writeRef_self _ _ _ he, hall]

/-- C1 counterexample: the record has opinions tagged `"abc"` and `"abcd"`
and the candidate tag is `"abc"`. The claim's filter ("the candidate tag
occurs as substring of some opinion tag") keeps both opinions; the code's
filter (`t in tag`: opinion tag occurs as substring of the candidate tag)
keeps only the `"abc"` opinion. -/
theorem claim_C1_counterexample :
    (_merge_record_for_signal_type storeC1cex 0 (some "abc") none).1 = some 1 ∧
    readRef (_merge_record_for_signal_type storeC1cex 0 (some "abc") none).2 1 =
      [opC1a] ∧
    claimedApplicableOpinions (readRef storeC1cex 0) "abc" = [opC1a, opC1b] ∧
    ([opC1a] : List FBThreatExchangeOpinion) ≠ [opC1a, opC1b] := by
  refine ⟨by decide, by decide, by decide, by decide⟩

/-- Witness for C1 (amended) at concrete inputs: an entry whose candidate
tag is not among the record's tags is skipped; and when all of record 1's
opinions survive the tag filter, merging into existing record 0 appends them
to record 0's opinions. -/
theorem claim_C1_witness :
    (processTagEntry "T" "s" 1 ["zz"] ([], storeC1w) (some "tg", [declC10]) =
      ([], storeC1w)) ∧
    applicable_opinions (readRef storeC1w 1) "tg" ≠ [] ∧
    (_merge_record_for_signal_type storeC1w 1 (some "tg") (some 0)).1 = none ∧
    readRef (_merge_record_for_signal_type storeC1w 1 (some "tg") (some 0)).2 0 =
      readRef storeC1w 0 ++ applicable_opinions (readRef storeC1w 1) "tg" := by
  have h5 := (claim_C1_tag_filter storeC1w 1 "tg").2.2.2.2 0 (by decide) (by decide)
  exact ⟨(claim_C1_tag_filter storeC1w 1 "tg").1 "T" "s" ["zz"] ([], storeC1w)
    [declC10] (by decide), by decide, h5.1, h5.2⟩

/-! ## Claim C10 -/

/-- C10: the projection mutates records of its input mapping through
aliasing. With two fetched entries normalizing to the same (signal type,
signal string), the first record (all of whose opinions pass the tag
filter, so the stored object is the record itself) has its opinion list
extended in place when the second record is merged: after projection the
store cell referenced by the input mapping differs from its input state. -/
theorem claim_C10_aliasing_mutation :
    readRef (naive_convert_to_signal_type [declC10] fetchedC10 storeC10).2 0 =
      [opC10a, opC10b] ∧
    readRef storeC10 0 = [opC10a] ∧
    (naive_convert_to_signal_type [declC10] fetchedC10 storeC10).2 ≠ storeC10 := by
  refine ⟨by decide, by decide, by decide⟩
